import Mathlib

/-!
Shallow embedding of the crown-bot-youtube core: the event bus
(src/lib/events/events.ts), the System base class (systems.ts), and the
command registry and dispatcher (src/lib/commands/command.ts).
JS strings are modelled as lists of characters, JS objects with string
keys as association lists, and side effects (logging, replying and
emitting) as explicit effect traces returned by each operation.
-/

namespace CrownBot

/-- A JS string, modelled as its list of characters. -/
abbrev JStr := List Char

/-- The whitespace set of the JS trim operation (ASCII part; the claims
only exercise space, tab, newline and carriage return). -/
def jsIsWS (c : Char) : Bool :=
  c = ' ' || c = '\t' || c = '\n' || c = '\r' || c = '\x0b' || c = '\x0c'

/-- Model of the JS trim method: remove whitespace at both ends. -/
def jsTrim (s : JStr) : JStr :=
  ((s.dropWhile (fun c => jsIsWS c)).reverse.dropWhile (fun c => jsIsWS c)).reverse

/-- Model of the JS split with the regex of one or more spaces, as used
in the dispatcher: separators are maximal nonempty runs of the space
character, and the empty string yields the singleton list of the empty
string, as in JS. -/
def jsSplitSpaces : JStr → List JStr
  | [] => [[]]
  | c :: rest =>
    if c = ' ' then
      match rest with
      | c2 :: rest2 =>
        if c2 = ' ' then jsSplitSpaces (c2 :: rest2)
        else [] :: jsSplitSpaces (c2 :: rest2)
      | [] => [] :: jsSplitSpaces []
    else
      match jsSplitSpaces rest with
      | t :: ts => (c :: t) :: ts
      | [] => [[c]]

/-- Tokenization as the specification words describe it: splitting on
maximal runs of whitespace characters rather than runs of spaces. Used
only to compare the specification wording with the code behavior. -/
def specSplitWhitespace : JStr → List JStr
  | [] => [[]]
  | c :: rest =>
    if jsIsWS c then
      match rest with
      | c2 :: rest2 =>
        if jsIsWS c2 then specSplitWhitespace (c2 :: rest2)
        else [] :: specSplitWhitespace (c2 :: rest2)
      | [] => [] :: specSplitWhitespace []
    else
      match specSplitWhitespace rest with
      | t :: ts => (c :: t) :: ts
      | [] => [[c]]

/-- String-keyed property read on a JS object modelled as an association
list. -/
def lookupAssoc {V : Type} (k : JStr) : List (JStr × V) → Option V
  | [] => none
  | p :: rest => if p.1 = k then some p.2 else lookupAssoc k rest

/-- String-keyed property assignment on a JS object: overwrites in place
when the key exists, appends otherwise. -/
def insertAssoc {V : Type} (k : JStr) (v : V) : List (JStr × V) → List (JStr × V)
  | [] => [(k, v)]
  | p :: rest => if p.1 = k then (k, v) :: rest else p :: insertAssoc k v rest

/-- The JS delete operator on a JS object. -/
def deleteAssoc {V : Type} (k : JStr) (l : List (JStr × V)) : List (JStr × V) :=
  l.filter (fun p => decide (p.1 ≠ k))

/-- The keys of a JS object. -/
def keysOf {V : Type} (l : List (JStr × V)) : List JStr :=
  l.map Prod.fst

/-- The Event class of events.ts: a name together with its action. The
argument and result types of actions are abstract parameters. -/
structure Event (α β : Type) where
  name : JStr
  action : List α → β

/-- Event.execute of events.ts: apply the action to the arguments. -/
def Event.execute {α β : Type} (e : Event α β) (args : List α) : β :=
  e.action args

/-- The Events class of events.ts: the hashtable of registered events. -/
structure Events (α β : Type) where
  events : List (JStr × Event α β)

/-- Events.check of events.ts: existence probe, no side effects. -/
def Events.check {α β : Type} (m : Events α β) (event_name : JStr) : Bool :=
  (lookupAssoc event_name m.events).isSome

/-- The warning text logged by Events.on for a duplicate name. -/
def dupWarn (event_name : JStr) : JStr :=
  (("[EVENTS] Duplicate event_name: ").toList) ++ event_name

/-- The error text logged by Events.emit on a lookup miss. -/
def missErr (event_name : JStr) : JStr :=
  (("No event named: ").toList) ++ event_name ++ ((" was found.").toList)

/-- Events.on of events.ts: registers the event unless the name is
already bound; a duplicate registration only logs a warning. Returns the
new registry state and the log lines produced. -/
def Events.on {α β : Type} (m : Events α β) (event_name : JStr) (action : List α → β) :
    Events α β × List JStr :=
  match lookupAssoc event_name m.events with
  | some _ => (m, [dupWarn event_name])
  | none => (⟨insertAssoc event_name ⟨event_name, action⟩ m.events⟩, [])

/-- Events.emit of events.ts: runs the bound action and forwards its
return value; on a miss it logs once and yields nothing. Returns the
registry state (emit never writes to the hashtable), the optional
result, and the log lines produced. -/
def Events.emit {α β : Type} (m : Events α β) (event_name : JStr) (args : List α) :
    Events α β × Option β × List JStr :=
  match lookupAssoc event_name m.events with
  | some e => (m, some (e.execute args), [])
  | none => (m, none, [missErr event_name])

/-- Registry states reachable from the empty registry by registrations. -/
inductive EventsReachable {α β : Type} : Events α β → Prop where
  | empty : EventsReachable ⟨[]⟩
  | register (m : Events α β) (event_name : JStr) (action : List α → β) :
      EventsReachable m → EventsReachable (Events.on m event_name action).1

/-- Runtime values stored in System fields, as far as the claims need
them: numbers, strings, and a reference to the shared event registry. -/
inductive Value where
  | vnum (n : Int)
  | vstr (s : JStr)
  | registryRef
  deriving DecidableEq

/-- A JS object viewed as a field map. -/
abbrev JSObject := List (JStr × Value)

/-- System.serialize of systems.ts: spread-copies the own fields of the
instance and then applies the delete operator for the key event_manager
to the copy. Note that the registry reference is stored under the key
events, not event_manager. -/
def System.serialize (self : JSObject) : JSObject :=
  deleteAssoc (("event_manager").toList) self

/-- System.deserialize of systems.ts: assigns every key of the object
read from a file onto the receiver. -/
def System.deserialize (self obj : JSObject) : JSObject :=
  obj.foldl (fun acc p => insertAssoc p.1 p.2 acc) self

/-- The fields assigned by the System base constructor. -/
structure SystemBase (Evts : Type) where
  events : Evts
  name : JStr
  deriving DecidableEq

/-- Side effects of the System base constructor. -/
inductive SysEffect (Evts : Type) where
  | log (s : JStr)
  | emit (event_name : JStr) (payload_name : JStr) (self : SystemBase Evts)
  deriving DecidableEq

/-- The log line of the System constructor. -/
def creatingMsg (name : JStr) : JStr :=
  (("[SYSTEM] Creating ").toList) ++ name ++ ((" System.").toList)

/-- The event name used for serializer registration. -/
def serializeRegister : JStr := ("serialize::register").toList

/-- The System constructor of systems.ts: logs, assigns events and name,
and, when the serialize flag is true, emits serialize::register with the
name and the instance itself as payload. -/
def System.construct {Evts : Type} (events : Evts) (name : JStr) (ser : Bool) :
    SystemBase Evts × List (SysEffect Evts) :=
  let self : SystemBase Evts := ⟨events, name⟩
  (self,
    [SysEffect.log (creatingMsg name)] ++
      (if ser = true then [SysEffect.emit serializeRegister name self] else []))

/-- Recognizer for the serializer registration emission. -/
def SysEffect.isSerializeRegister {Evts : Type} : SysEffect Evts → Bool
  | .emit event_name _ _ => decide (event_name = serializeRegister)
  | _ => false

/-- The author field of a message, as far as the dispatcher inspects it. -/
structure Author where
  bot : Bool
  deriving DecidableEq

/-- A message, as far as the command dispatcher inspects it. -/
structure Msg where
  content : JStr
  author : Author
  deriving DecidableEq

/-- The Command class of command.ts. The name is optional because the
add path explicitly guards against an undefined name at runtime. An
action that throws synchronously is modelled as returning an error
carrying the error text; a normal return is ok. -/
structure Command (Evts : Type) where
  name : Option JStr
  description : JStr
  action : Evts → Msg → List JStr → Except JStr Unit

/-- Command.execute of command.ts: forwards to the action, spreading the
argument list positionally. -/
def Command.execute {Evts : Type} (c : Command Evts) (event_manager : Evts)
    (message : Msg) (args : List JStr) : Except JStr Unit :=
  c.action event_manager message args

/-- Observable side effects of the command dispatcher. -/
inductive Effect (Evts : Type) where
  | log (s : JStr)
  | invoke (command : JStr) (event_manager : Evts) (message : Msg) (args : List JStr)
  | reply (message : Msg) (text : JStr)
  deriving DecidableEq

/-- Recognizer for reply effects. -/
def Effect.isReply {Evts : Type} : Effect Evts → Bool
  | .reply _ _ => true
  | _ => false

/-- Recognizer for action invocations. -/
def Effect.isInvoke {Evts : Type} : Effect Evts → Bool
  | .invoke _ _ _ _ => true
  | _ => false

/-- CommandManager state: the shared registry reference inherited from
the System base, the command table, and the configured command marker
string that commands must start with. -/
structure CommandManager (Evts : Type) where
  events : Evts
  commands : List (JStr × Command Evts)
  cmdPrefix : JStr

/-- CommandManager.add of command.ts: a command with an undefined name
is ignored without any effect; otherwise the name is logged and the
command stored under its name, overwriting any previous entry. -/
def CommandManager.add {Evts : Type} (m : CommandManager Evts) (c : Command Evts) :
    CommandManager Evts × List (Effect Evts) :=
  match c.name with
  | none => (m, [])
  | some n => ({ m with commands := insertAssoc n c m.commands }, [Effect.log n])

/-- The log line of the dispatch path. -/
def execLogLine (command : JStr) : JStr :=
  (("[COMMANDS] Executing: ").toList) ++ command

/-- CommandManager.parse of command.ts: ignore messages that do not
start with the marker or that come from a bot; otherwise strip the
marker, trim, split on runs of spaces, shift off the command name, look
it up, and execute it inside the try block, logging and replying with
the error text when the action throws. -/
def CommandManager.parse {Evts : Type} (m : CommandManager Evts) (message : Msg) :
    CommandManager Evts × List (Effect Evts) :=
  if m.cmdPrefix.isPrefixOf message.content = false ∨ message.author.bot = true then
    (m, [])
  else
    match jsSplitSpaces (jsTrim (message.content.drop m.cmdPrefix.length)) with
    | [] => (m, [])
    | command :: args =>
      match lookupAssoc command m.commands with
      | none => (m, [])
      | some c =>
        match c.execute m.events message args with
        | Except.ok _ =>
          (m, [Effect.log (execLogLine command), Effect.invoke command m.events message args])
        | Except.error error =>
          (m, [Effect.log (execLogLine command), Effect.invoke command m.events message args,
               Effect.log error, Effect.reply message error])

/-- The first token of the message after the marker, i.e. the command
name that parse shifts off the token list. -/
def CommandManager.parsedCommandName {Evts : Type} (m : CommandManager Evts)
    (message : Msg) : Option JStr :=
  (jsSplitSpaces (jsTrim (message.content.drop m.cmdPrefix.length))).head?

/-- Concrete System field map: a registry reference under events, a name
and one data field. -/
def c1Fields : JSObject :=
  [((("events").toList), Value.registryRef),
   ((("name").toList), Value.vstr (("S").toList)),
   ((("state").toList), Value.vnum 3)]

/-- Concrete echo command whose action returns normally. -/
def exEchoCommand : Command Unit :=
  ⟨some (("echo").toList), [], fun _ _ _ => Except.ok ()⟩

/-- Concrete manager holding only the echo command, with marker bang. -/
def exManager : CommandManager Unit :=
  ⟨(), [((("echo").toList), exEchoCommand)], ("!").toList⟩

/-- Concrete message whose argument region contains a tab. -/
def exTabMessage : Msg :=
  ⟨("!echo a\tb").toList, ⟨false⟩⟩

/-- Concrete message with two space-separated arguments. -/
def exHelloMessage : Msg :=
  ⟨("!echo hello world").toList, ⟨false⟩⟩

/-- Concrete message that does not start with the marker. -/
def exPlainMessage : Msg :=
  ⟨("hello").toList, ⟨false⟩⟩

/-- Concrete command whose action always throws. -/
def exBoomCommand : Command Unit :=
  ⟨some (("boom").toList), [], fun _ _ _ => Except.error (("kaboom").toList)⟩

/-- Concrete manager holding only the throwing command. -/
def exManager2 : CommandManager Unit :=
  ⟨(), [((("boom").toList), exBoomCommand)], ("!").toList⟩

/-- Concrete message invoking the throwing command. -/
def exBoomMessage : Msg :=
  ⟨("!boom").toList, ⟨false⟩⟩

/-- Concrete command whose name is the empty string. -/
def exEmptyCommand : Command Unit :=
  ⟨some [], [], fun _ _ _ => Except.ok ()⟩

/-- Concrete manager holding the empty-named command. -/
def exManager3 : CommandManager Unit :=
  ⟨(), [(([] : JStr), exEmptyCommand)], ("!").toList⟩

/-- Concrete message that is the marker followed by one space. -/
def exMarkerMessage : Msg :=
  ⟨("! ").toList, ⟨false⟩⟩

/-- Concrete command named ping, first version. -/
def exPingA : Command Unit :=
  ⟨some (("ping").toList), [], fun _ _ _ => Except.ok ()⟩

/-- Concrete command named ping, second version. -/
def exPingB : Command Unit :=
  ⟨some (("ping").toList), ("v2").toList, fun _ _ _ => Except.ok ()⟩

/-- Concrete manager with an empty command table. -/
def exManager0 : CommandManager Unit :=
  ⟨(), [], ("!").toList⟩

/-- Concrete command with an undefined name. -/
def exNameless : Command Unit :=
  ⟨none, [], fun _ _ _ => Except.ok ()⟩

/-- Concrete receiver for deserialization. -/
def c10Self : JSObject :=
  [((("a").toList), Value.vnum 1), ((("events").toList), Value.registryRef)]

/-- Concrete snapshot for deserialization. -/
def c10Obj : JSObject :=
  [((("a").toList), Value.vnum 2), ((("b").toList), Value.vnum 3)]

theorem lookupAssoc_nil {V : Type} (k : JStr) :
    lookupAssoc k ([] : List (JStr × V)) = none := rfl

theorem lookupAssoc_cons {V : Type} (k : JStr) (p : JStr × V) (rest : List (JStr × V)) :
    lookupAssoc k (p :: rest) = if p.1 = k then some p.2 else lookupAssoc k rest := rfl

theorem insertAssoc_nil {V : Type} (k : JStr) (v : V) :
    insertAssoc k v ([] : List (JStr × V)) = [(k, v)] := rfl

theorem insertAssoc_cons {V : Type} (k : JStr) (v : V) (p : JStr × V)
    (rest : List (JStr × V)) :
    insertAssoc k v (p :: rest) =
      if p.1 = k then (k, v) :: rest else p :: insertAssoc k v rest := rfl

theorem lookupAssoc_eq_none_iff {V : Type} (k : JStr) (l : List (JStr × V)) :
    lookupAssoc k l = none ↔ k ∉ keysOf l := by
  induction l with
  | nil =>
    constructor
    · intro _ hmem
      simp [keysOf] at hmem
    · intro _
      rfl
  | cons p rest ih =>
    rw [lookupAssoc_cons, keysOf, List.map_cons, List.mem_cons]
    by_cases hp : p.1 = k
    · rw [if_pos hp]
      constructor
      · intro h
        exact absurd h (Option.some_ne_none p.2)
      · intro h
        exact ((h (Or.inl hp.symm)).elim)
    · rw [if_neg hp]
      rw [keysOf] at ih
      rw [ih]
      constructor
      · intro h
        rintro (h1 | h2)
        · exact hp h1.symm
        · exact h h2
      · intro h h2
        exact h (Or.inr h2)

theorem lookupAssoc_insertAssoc_self {V : Type} (k : JStr) (v : V)
    (l : List (JStr × V)) : lookupAssoc k (insertAssoc k v l) = some v := by
  induction l with
  | nil => simp [insertAssoc_nil, lookupAssoc_cons]
  | cons p rest ih =>
    by_cases hp : p.1 = k
    · simp [insertAssoc_cons, hp, lookupAssoc_cons]
    · simp [insertAssoc_cons, hp, lookupAssoc_cons, ih]

theorem lookupAssoc_insertAssoc_ne {V : Type} (k k2 : JStr) (v : V)
    (l : List (JStr × V)) (h : k2 ≠ k) :
    lookupAssoc k2 (insertAssoc k v l) = lookupAssoc k2 l := by
  have h2 : ¬ (k = k2) := fun hh => h hh.symm
  induction l with
  | nil => simp [insertAssoc_nil, lookupAssoc_cons, lookupAssoc_nil, h2]
  | cons p rest ih =>
    by_cases hp : p.1 = k
    · have h3 : ¬ (p.1 = k2) := by rw [hp]; exact h2
      simp [insertAssoc_cons, hp, lookupAssoc_cons, h2, h3]
    · simp [insertAssoc_cons, hp, lookupAssoc_cons, ih]

theorem mem_keysOf_insertAssoc_iff {V : Type} (k k2 : JStr) (v : V)
    (l : List (JStr × V)) :
    k2 ∈ keysOf (insertAssoc k v l) ↔ k2 = k ∨ k2 ∈ keysOf l := by
  induction l with
  | nil => simp [insertAssoc_nil, keysOf]
  | cons p rest ih =>
    by_cases hp : p.1 = k
    · rw [insertAssoc_cons, if_pos hp]
      rw [keysOf, keysOf, List.map_cons, List.map_cons, List.mem_cons, List.mem_cons]
      rw [hp]
      tauto
    · rw [insertAssoc_cons, if_neg hp]
      rw [keysOf, keysOf, List.map_cons, List.map_cons, List.mem_cons, List.mem_cons]
      rw [keysOf] at ih
      rw [ih]
      tauto

theorem nodup_keysOf_insertAssoc {V : Type} (k : JStr) (v : V)
    (l : List (JStr × V)) (h : (keysOf l).Nodup) :
    (keysOf (insertAssoc k v l)).Nodup := by
  induction l with
  | nil => simp [insertAssoc_nil, keysOf]
  | cons p rest ih =>
    rw [keysOf, List.map_cons, List.nodup_cons] at h
    by_cases hp : p.1 = k
    · rw [insertAssoc_cons, if_pos hp]
      rw [keysOf, List.map_cons, List.nodup_cons]
      exact ⟨hp ▸ h.1, h.2⟩
    · rw [insertAssoc_cons, if_neg hp]
      rw [keysOf, List.map_cons, List.nodup_cons]
      refine ⟨?_, ih h.2⟩
      intro hcon
      rcases (mem_keysOf_insertAssoc_iff k p.1 v rest).1 hcon with hh | hh
      · exact hp hh
      · exact h.1 hh

theorem countP_key_eq_zero {V : Type} (k : JStr) (l : List (JStr × V))
    (h : k ∉ keysOf l) : l.countP (fun p => decide (p.1 = k)) = 0 := by
  induction l with
  | nil => simp
  | cons p rest ih =>
    rw [keysOf, List.map_cons, List.mem_cons] at h
    push_neg at h
    have h1 : ¬ (p.1 = k) := fun hh => h.1 hh.symm
    rw [List.countP_cons]
    simp [ih (by rw [keysOf]; exact h.2), h1]

theorem countP_key_eq_one {V : Type} (k : JStr) (l : List (JStr × V))
    (hnd : (keysOf l).Nodup) (hm : k ∈ keysOf l) :
    l.countP (fun p => decide (p.1 = k)) = 1 := by
  induction l with
  | nil => simp [keysOf] at hm
  | cons p rest ih =>
    rw [keysOf, List.map_cons, List.nodup_cons] at hnd
    rw [keysOf, List.map_cons, List.mem_cons] at hm
    rcases hm with hm | hm
    · have h0 : rest.countP (fun q => decide (q.1 = k)) = 0 :=
        countP_key_eq_zero k rest (by rw [← hm] at hnd; exact hnd.1)
      rw [List.countP_cons]
      simp [h0, hm.symm]
    · have h1 : ¬ (p.1 = k) := fun hh => hnd.1 (hh ▸ hm)
      rw [List.countP_cons]
      simp [ih hnd.2 hm, h1]

theorem jsTrim_all_ws (l : JStr) (h : ∀ c ∈ l, jsIsWS c = true) : jsTrim l = [] := by
  have h1 : l.dropWhile (fun c => jsIsWS c) = [] := by
    rw [List.dropWhile_eq_nil_iff]
    intro c hc
    simp [h c hc]
  simp [jsTrim, h1]

theorem isPrefixOf_append_self (p r : JStr) : p.isPrefixOf (p ++ r) = true := by
  rw [List.isPrefixOf_iff_prefix]
  exact List.prefix_append p r

theorem deserialize_nil (self : JSObject) : System.deserialize self [] = self := rfl

theorem deserialize_cons (self : JSObject) (p : JStr × Value)
    (rest : List (JStr × Value)) :
    System.deserialize self (p :: rest) =
      System.deserialize (insertAssoc p.1 p.2 self) rest := rfl

theorem lookupAssoc_deserialize_not_mem (obj : JSObject) :
    ∀ (self : JSObject) (k : JStr), k ∉ keysOf obj →
      lookupAssoc k (System.deserialize self obj) = lookupAssoc k self := by
  induction obj with
  | nil =>
    intro self k _
    rfl
  | cons p rest ih =>
    intro self k h
    rw [keysOf, List.map_cons, List.mem_cons] at h
    push_neg at h
    rw [deserialize_cons]
    rw [ih (insertAssoc p.1 p.2 self) k (by rw [keysOf]; exact h.2)]
    exact lookupAssoc_insertAssoc_ne p.1 k p.2 self h.1

theorem lookupAssoc_deserialize_mem (obj : JSObject) :
    ∀ (self : JSObject) (k : JStr) (v : Value), (keysOf obj).Nodup →
      lookupAssoc k obj = some v →
      lookupAssoc k (System.deserialize self obj) = some v := by
  induction obj with
  | nil =>
    intro self k v _ h
    rw [lookupAssoc_nil] at h
    exact absurd h (Option.noConfusion)
  | cons p rest ih =>
    intro self k v hnd h
    rw [keysOf, List.map_cons, List.nodup_cons] at hnd
    rw [lookupAssoc_cons] at h
    by_cases hp : p.1 = k
    · rw [if_pos hp] at h
      have hv : p.2 = v := Option.some.inj h
      have hk : k ∉ keysOf rest := by rw [← hp]; exact hnd.1
      rw [deserialize_cons, lookupAssoc_deserialize_not_mem rest _ k hk]
      rw [hp, lookupAssoc_insertAssoc_self]
      exact congrArg some hv
    · rw [if_neg hp] at h
      rw [deserialize_cons]
      exact ih (insertAssoc p.1 p.2 self) k v hnd.2 h

theorem mem_keysOf_deserialize (obj : JSObject) :
    ∀ (self : JSObject) (k : JStr), k ∈ keysOf self →
      k ∈ keysOf (System.deserialize self obj) := by
  induction obj with
  | nil =>
    intro self k h
    exact h
  | cons p rest ih =>
    intro self k h
    rw [deserialize_cons]
    exact ih (insertAssoc p.1 p.2 self) k
      ((mem_keysOf_insertAssoc_iff p.1 k p.2 self).2 (Or.inr h))

theorem reachable_nodup {α β : Type} (m : Events α β) (h : EventsReachable m) :
    (keysOf m.events).Nodup := by
  induction h with
  | empty => simp [keysOf]
  | register m2 n a _ ih =>
    cases hl : lookupAssoc n m2.events with
    | some e =>
      have h1 : (Events.on m2 n a).1 = m2 := by
        simp only [Events.on, hl]
      rw [h1]
      exact ih
    | none =>
      have h1 : (Events.on m2 n a).1 = ⟨insertAssoc n ⟨n, a⟩ m2.events⟩ := by
        simp only [Events.on, hl]
      rw [h1]
      exact nodup_keysOf_insertAssoc n ⟨n, a⟩ m2.events ih

theorem parse_cond_false {Evts : Type} (m : CommandManager Evts) (message : Msg)
    (hpre : m.cmdPrefix.isPrefixOf message.content = true)
    (hbot : message.author.bot = false) :
    ¬ (m.cmdPrefix.isPrefixOf message.content = false ∨ message.author.bot = true) := by
  rw [hpre, hbot]
  simp

theorem parse_unknown {Evts : Type} (m : CommandManager Evts) (message : Msg)
    (command : JStr) (args : List JStr)
    (hpre : m.cmdPrefix.isPrefixOf message.content = true)
    (hbot : message.author.bot = false)
    (htok : jsSplitSpaces (jsTrim (message.content.drop m.cmdPrefix.length)) = command :: args)
    (hlook : lookupAssoc command m.commands = none) :
    CommandManager.parse m message = (m, []) := by
  simp only [CommandManager.parse]
  rw [if_neg (parse_cond_false m message hpre hbot)]
  simp only [htok, hlook]

theorem parse_found_ok {Evts : Type} (m : CommandManager Evts) (message : Msg)
    (command : JStr) (args : List JStr) (c : Command Evts)
    (hpre : m.cmdPrefix.isPrefixOf message.content = true)
    (hbot : message.author.bot = false)
    (htok : jsSplitSpaces (jsTrim (message.content.drop m.cmdPrefix.length)) = command :: args)
    (hlook : lookupAssoc command m.commands = some c)
    (hok : c.action m.events message args = Except.ok ()) :
    CommandManager.parse m message =
      (m, [Effect.log (execLogLine command),
           Effect.invoke command m.events message args]) := by
  simp only [CommandManager.parse]
  rw [if_neg (parse_cond_false m message hpre hbot)]
  simp only [htok, hlook, Command.execute, hok]

theorem parse_found_err {Evts : Type} (m : CommandManager Evts) (message : Msg)
    (command : JStr) (args : List JStr) (c : Command Evts) (e : JStr)
    (hpre : m.cmdPrefix.isPrefixOf message.content = true)
    (hbot : message.author.bot = false)
    (htok : jsSplitSpaces (jsTrim (message.content.drop m.cmdPrefix.length)) = command :: args)
    (hlook : lookupAssoc command m.commands = some c)
    (herr : c.action m.events message args = Except.error e) :
    CommandManager.parse m message =
      (m, [Effect.log (execLogLine command),
           Effect.invoke command m.events message args,
           Effect.log e, Effect.reply message e]) := by
  simp only [CommandManager.parse]
  rw [if_neg (parse_cond_false m message hpre hbot)]
  simp only [htok, hlook, Command.execute, herr]

/-- C1: evaluation of the code at the failing input. On a System whose
fields are a registry reference under events, a name, and a state field,
serialize returns the field map unchanged: the delete targets the key
event_manager, which never exists, while the registry reference is
stored under the key events. The snapshot therefore still contains the
registry reference and is not the registry-free snapshot the claim
describes. -/
theorem C1_serialize_retains_registry :
    System.serialize c1Fields = c1Fields ∧
    lookupAssoc (("events").toList) (System.serialize c1Fields) = some Value.registryRef ∧
    ¬ (System.serialize c1Fields =
      [((("name").toList), Value.vstr (("S").toList)),
       ((("state").toList), Value.vnum 3)]) := by
  refine ⟨by decide, by decide, by decide⟩

/-- C2: when the resolved Command action throws synchronously, parse
returns normally with the manager state unchanged, logs the execution
line and the error text, sends exactly one reply to the originating
message carrying the error text, and parse calls from the resulting
state coincide with parse calls from the original state. -/
theorem C2_parse_isolates_action_errors {Evts : Type} (m : CommandManager Evts)
    (message : Msg) (command : JStr) (args : List JStr) (c : Command Evts) (e : JStr)
    (hpre : m.cmdPrefix.isPrefixOf message.content = true)
    (hbot : message.author.bot = false)
    (htok : jsSplitSpaces (jsTrim (message.content.drop m.cmdPrefix.length)) = command :: args)
    (hlook : lookupAssoc command m.commands = some c)
    (hact : c.action m.events message args = Except.error e) :
    CommandManager.parse m message =
      (m, [Effect.log (execLogLine command),
           Effect.invoke command m.events message args,
           Effect.log e, Effect.reply message e]) ∧
    (CommandManager.parse m message).2.countP Effect.isReply = 1 ∧
    (∀ message2 : Msg, CommandManager.parse (CommandManager.parse m message).1 message2 =
      CommandManager.parse m message2) := by
  have h1 := parse_found_err m message command args c e hpre hbot htok hlook hact
  refine ⟨h1, ?_, ?_⟩
  · rw [h1]
    simp [Effect.isReply]
  · intro message2
    rw [h1]

/-- C2 witness: the throwing command boom dispatched from a concrete
message produces the four-effect trace with exactly one reply. -/
theorem C2_witness :
    CommandManager.parse exManager2 exBoomMessage =
      (exManager2,
       [Effect.log (execLogLine (("boom").toList)),
        Effect.invoke (("boom").toList) () exBoomMessage [],
        Effect.log (("kaboom").toList),
        Effect.reply exBoomMessage (("kaboom").toList)]) ∧
    (CommandManager.parse exManager2 exBoomMessage).2.countP Effect.isReply = 1 ∧
    CommandManager.parse (CommandManager.parse exManager2 exBoomMessage).1 exBoomMessage =
      CommandManager.parse exManager2 exBoomMessage := by
  have T := C2_parse_isolates_action_errors exManager2 exBoomMessage (("boom").toList) []
    exBoomCommand (("kaboom").toList) (by decide) rfl (by decide) rfl rfl
  exact ⟨T.1, T.2.1, T.2.2 exBoomMessage⟩

/-- C3: registering a second action under an already-bound name is a
no-op that only logs the duplicate diagnostic; emitting the name then
still runs the first action; and every registry state reachable from
the empty registry has pairwise distinct event names, hence at most one
handler per name. -/
theorem C3_duplicate_registration_noop {α β : Type} (m : Events α β) (event_name : JStr)
    (a1 a2 : List α → β) (args : List α)
    (h : lookupAssoc event_name m.events = none) :
    Events.on (Events.on m event_name a1).1 event_name a2 =
      ((Events.on m event_name a1).1, [dupWarn event_name]) ∧
    Events.emit (Events.on m event_name a1).1 event_name args =
      ((Events.on m event_name a1).1, some (a1 args), []) ∧
    (∀ m2 : Events α β, EventsReachable m2 → (keysOf m2.events).Nodup) := by
  have h1 : (Events.on m event_name a1).1 =
      ⟨insertAssoc event_name ⟨event_name, a1⟩ m.events⟩ := by
    simp only [Events.on, h]
  have h2 : lookupAssoc event_name
      (insertAssoc event_name (⟨event_name, a1⟩ : Event α β) m.events) =
      some ⟨event_name, a1⟩ :=
    lookupAssoc_insertAssoc_self event_name ⟨event_name, a1⟩ m.events
  refine ⟨?_, ?_, fun m2 hr => reachable_nodup m2 hr⟩
  · rw [h1]
    simp only [Events.on, h2]
  · rw [h1]
    simp only [Events.emit, h2, Event.execute]

/-- C3 witness: binding ping twice on the empty registry keeps the first
action, the second registration only logs, and the empty registry has
distinct names. -/
theorem C3_witness :
    Events.on (Events.on (⟨[]⟩ : Events Nat Nat) (("ping").toList) (fun _ => 1)).1
        (("ping").toList) (fun _ => 2) =
      ((Events.on (⟨[]⟩ : Events Nat Nat) (("ping").toList) (fun _ => 1)).1,
       [dupWarn (("ping").toList)]) ∧
    Events.emit (Events.on (⟨[]⟩ : Events Nat Nat) (("ping").toList) (fun _ => 1)).1
        (("ping").toList) [] =
      ((Events.on (⟨[]⟩ : Events Nat Nat) (("ping").toList) (fun _ => 1)).1,
       some 1, []) ∧
    (keysOf (⟨[]⟩ : Events Nat Nat).events).Nodup := by
  have T := C3_duplicate_registration_noop (⟨[]⟩ : Events Nat Nat) (("ping").toList)
    (fun _ => 1) (fun _ => 2) [] rfl
  exact ⟨T.1, T.2.1, T.2.2 ⟨[]⟩ EventsReachable.empty⟩

/-- C4: emitting a name with no bound handler returns no result, leaves
the registry untouched, never throws, and logs exactly one diagnostic. -/
theorem C4_emit_miss_soft {α β : Type} (m : Events α β) (event_name : JStr)
    (args : List α) (h : lookupAssoc event_name m.events = none) :
    Events.emit m event_name args = (m, none, [missErr event_name]) ∧
    (Events.emit m event_name args).2.2.length = 1 := by
  have h1 : Events.emit m event_name args = (m, none, [missErr event_name]) := by
    simp only [Events.emit, h]
  exact ⟨h1, by rw [h1]; rfl⟩

/-- C4 witness: emitting an unknown name on the empty registry yields no
result and one diagnostic. -/
theorem C4_witness :
    Events.emit (⟨[]⟩ : Events Nat Nat) (("nope").toList) [] =
      (⟨[]⟩, none, [missErr (("nope").toList)]) ∧
    (Events.emit (⟨[]⟩ : Events Nat Nat) (("nope").toList) []).2.2.length = 1 :=
  C4_emit_miss_soft (⟨[]⟩ : Events Nat Nat) (("nope").toList) [] rfl

/-- C5 counterexample: the dispatcher splits on runs of spaces, not on
runs of whitespace. On a message whose argument region contains a tab,
parse invokes the echo action with the single argument a-tab-b, while
tokenizing on runs of whitespace as the claim states would produce the
two arguments a and b. -/
theorem C5_counterexample_tab_not_whitespace_split :
    (CommandManager.parse exManager exTabMessage).2 =
      [Effect.log (execLogLine (("echo").toList)),
       Effect.invoke (("echo").toList) () exTabMessage [(("a\tb").toList)]] ∧
    specSplitWhitespace (jsTrim (exTabMessage.content.drop exManager.cmdPrefix.length)) =
      [(("echo").toList), (("a").toList), (("b").toList)] ∧
    ¬ ([(("a\tb").toList)] = [(("a").toList), (("b").toList)]) := by
  refine ⟨by decide, by decide, by decide⟩

/-- C5 amended: for a human-authored message whose content is the
configured marker followed by rest, parse strips the marker, trims,
splits on runs of space characters, takes the first token as the
command name, and invokes the registered action exactly once with the
registry, the message, and the remaining tokens as positional
arguments. -/
theorem C5_dispatch_space_tokenization {Evts : Type} (m : CommandManager Evts)
    (message : Msg) (rest command : JStr) (args : List JStr) (c : Command Evts)
    (hcontent : message.content = m.cmdPrefix ++ rest)
    (hbot : message.author.bot = false)
    (htok : jsSplitSpaces (jsTrim rest) = command :: args)
    (hlook : lookupAssoc command m.commands = some c)
    (hok : c.action m.events message args = Except.ok ()) :
    CommandManager.parse m message =
      (m, [Effect.log (execLogLine command),
           Effect.invoke command m.events message args]) ∧
    (CommandManager.parse m message).2.countP Effect.isInvoke = 1 := by
  have hpre : m.cmdPrefix.isPrefixOf message.content = true := by
    rw [hcontent]
    exact isPrefixOf_append_self m.cmdPrefix rest
  have hdrop : message.content.drop m.cmdPrefix.length = rest := by
    rw [hcontent]
    exact List.drop_left m.cmdPrefix rest
  have htok2 : jsSplitSpaces (jsTrim (message.content.drop m.cmdPrefix.length)) =
      command :: args := by
    rw [hdrop]
    exact htok
  have h1 := parse_found_ok m message command args c hpre hbot htok2 hlook hok
  refine ⟨h1, ?_⟩
  rw [h1]
  simp [Effect.isInvoke]

/-- C5 witness: the echo command dispatched on a concrete message with
two space-separated arguments receives exactly those two arguments. -/
theorem C5_witness :
    CommandManager.parse exManager exHelloMessage =
      (exManager,
       [Effect.log (execLogLine (("echo").toList)),
        Effect.invoke (("echo").toList) () exHelloMessage
          [(("hello").toList), (("world").toList)]]) ∧
    (CommandManager.parse exManager exHelloMessage).2.countP Effect.isInvoke = 1 := by
  have T := C5_dispatch_space_tokenization exManager exHelloMessage
    (("echo hello world").toList) (("echo").toList)
    [(("hello").toList), (("world").toList)] exEchoCommand (by decide) rfl (by decide) rfl rfl
  exact ⟨T.1, T.2⟩

/-- C6: add on a command lacking a name is a no-op with no effects;
otherwise insertion is keyed by name with last-write-wins overwrite, so
after two adds of same-named commands the table maps the name to the
second command, holds exactly one entry with that key, and keeps its
keys pairwise distinct. -/
theorem C6_add_overwrites {Evts : Type} (m : CommandManager Evts)
    (c1 c2 : Command Evts) (n : JStr)
    (h1 : c1.name = some n) (h2 : c2.name = some n)
    (hnd : (keysOf m.commands).Nodup) :
    lookupAssoc n (CommandManager.add (CommandManager.add m c1).1 c2).1.commands = some c2 ∧
    (CommandManager.add (CommandManager.add m c1).1 c2).1.commands.countP
      (fun p => decide (p.1 = n)) = 1 ∧
    (keysOf (CommandManager.add (CommandManager.add m c1).1 c2).1.commands).Nodup ∧
    (∀ c0 : Command Evts, c0.name = none → CommandManager.add m c0 = (m, [])) := by
  have e1 : (CommandManager.add m c1).1 =
      { m with commands := insertAssoc n c1 m.commands } := by
    simp only [CommandManager.add, h1]
  have e2 : (CommandManager.add (CommandManager.add m c1).1 c2).1.commands =
      insertAssoc n c2 (insertAssoc n c1 m.commands) := by
    rw [e1]
    simp only [CommandManager.add, h2]
  have hnd1 : (keysOf (insertAssoc n c1 m.commands)).Nodup :=
    nodup_keysOf_insertAssoc n c1 m.commands hnd
  have hnd2 : (keysOf (insertAssoc n c2 (insertAssoc n c1 m.commands))).Nodup :=
    nodup_keysOf_insertAssoc n c2 (insertAssoc n c1 m.commands) hnd1
  have hmem : n ∈ keysOf (insertAssoc n c2 (insertAssoc n c1 m.commands)) :=
    (mem_keysOf_insertAssoc_iff n n c2 (insertAssoc n c1 m.commands)).2 (Or.inl rfl)
  refine ⟨?_, ?_, ?_, ?_⟩
  · rw [e2]
    exact lookupAssoc_insertAssoc_self n c2 (insertAssoc n c1 m.commands)
  · rw [e2]
    exact countP_key_eq_one n (insertAssoc n c2 (insertAssoc n c1 m.commands)) hnd2 hmem
  · rw [e2]
    exact hnd2
  · intro c0 h0
    simp only [CommandManager.add, h0]

/-- C6 witness: adding two ping commands to the empty table leaves only
the second, with one entry under that name; a nameless command is a
no-op. -/
theorem C6_witness :
    lookupAssoc (("ping").toList)
      (CommandManager.add (CommandManager.add exManager0 exPingA).1 exPingB).1.commands =
      some exPingB ∧
    (CommandManager.add (CommandManager.add exManager0 exPingA).1 exPingB).1.commands.countP
      (fun p => decide (p.1 = (("ping").toList))) = 1 ∧
    (keysOf (CommandManager.add (CommandManager.add exManager0 exPingA).1
      exPingB).1.commands).Nodup ∧
    CommandManager.add exManager0 exNameless = (exManager0, []) := by
  have T := C6_add_overwrites exManager0 exPingA exPingB (("ping").toList) rfl rfl (by decide)
  exact ⟨T.1, T.2.1, T.2.2.1, T.2.2.2 exNameless rfl⟩

/-- C7: constructing a System with the serialization flag false emits no
serializer registration; with the flag true the construction effects
contain exactly one serializer registration, carrying the name and the
constructed instance itself. -/
theorem C7_construct_serialize_register {Evts : Type} (events : Evts) (name : JStr) :
    (System.construct events name false).2.countP SysEffect.isSerializeRegister = 0 ∧
    (System.construct events name true).2.countP SysEffect.isSerializeRegister = 1 ∧
    (System.construct events name true).2 =
      [SysEffect.log (creatingMsg name),
       SysEffect.emit serializeRegister name ⟨events, name⟩] := by
  refine ⟨?_, ?_, ?_⟩
  · simp [System.construct, SysEffect.isSerializeRegister]
  · simp [System.construct, SysEffect.isSerializeRegister]
  · simp [System.construct]

/-- C8: on a message that does not start with the marker, or whose
author is a bot, or whose first token is not a registered command name,
parse returns with the manager unchanged and an empty effect trace: no
invocation, no reply, no log. -/
theorem C8_parse_silent_ignore {Evts : Type} (m : CommandManager Evts) (message : Msg)
    (h : m.cmdPrefix.isPrefixOf message.content = false ∨ message.author.bot = true ∨
      (∀ t : JStr, CommandManager.parsedCommandName m message = some t →
        lookupAssoc t m.commands = none)) :
    CommandManager.parse m message = (m, []) := by
  rcases h with h1 | h2 | h3
  · simp only [CommandManager.parse]
    rw [if_pos (Or.inl h1)]
  · simp only [CommandManager.parse]
    rw [if_pos (Or.inr h2)]
  · by_cases hp : m.cmdPrefix.isPrefixOf message.content = true
    · by_cases hb : message.author.bot = true
      · simp only [CommandManager.parse]
        rw [if_pos (Or.inr hb)]
      · have hbf : message.author.bot = false := by
          cases hx : message.author.bot
          · rfl
          · exact absurd hx hb
        cases htk : jsSplitSpaces (jsTrim (message.content.drop m.cmdPrefix.length)) with
        | nil =>
          simp only [CommandManager.parse]
          rw [if_neg (parse_cond_false m message hp hbf)]
          simp only [htk]
        | cons command args =>
          have h4 : CommandManager.parsedCommandName m message = some command := by
            simp only [CommandManager.parsedCommandName, htk, List.head?_cons]
          exact parse_unknown m message command args hp hbf htk (h3 command h4)
    · have hpf : m.cmdPrefix.isPrefixOf message.content = false := by
        cases hx : m.cmdPrefix.isPrefixOf message.content
        · rfl
        · exact absurd hx hp
      simp only [CommandManager.parse]
      rw [if_pos (Or.inl hpf)]

/-- C8 witness: a concrete message without the marker is ignored with an
empty effect trace. -/
theorem C8_witness :
    CommandManager.parse exManager exPlainMessage = (exManager, []) :=
  C8_parse_silent_ignore exManager exPlainMessage (Or.inl (by decide))

/-- C9: add accepts a command whose name is the empty string, storing
it under that key; a message that is exactly the marker, or the marker
followed only by whitespace, parses to the empty-string command name,
dispatches to an empty-named command when one is registered, and is
silently ignored otherwise. -/
theorem C9_empty_name_command {Evts : Type} (m : CommandManager Evts)
    (c : Command Evts) (message : Msg) (ws : JStr)
    (hc : c.name = some [])
    (hcontent : message.content = m.cmdPrefix ++ ws)
    (hws : ∀ ch ∈ ws, jsIsWS ch = true)
    (hbot : message.author.bot = false) :
    CommandManager.add m c =
      ({ m with commands := insertAssoc [] c m.commands }, [Effect.log []]) ∧
    lookupAssoc [] (CommandManager.add m c).1.commands = some c ∧
    CommandManager.parsedCommandName m message = some [] ∧
    (lookupAssoc ([] : JStr) m.commands = none →
      CommandManager.parse m message = (m, [])) ∧
    (∀ c0 : Command Evts, lookupAssoc ([] : JStr) m.commands = some c0 →
      Effect.invoke [] m.events message [] ∈ (CommandManager.parse m message).2) := by
  have hpre : m.cmdPrefix.isPrefixOf message.content = true := by
    rw [hcontent]
    exact isPrefixOf_append_self m.cmdPrefix ws
  have hdrop : message.content.drop m.cmdPrefix.length = ws := by
    rw [hcontent]
    exact List.drop_left m.cmdPrefix ws
  have htrim : jsTrim ws = [] := jsTrim_all_ws ws hws
  have htok : jsSplitSpaces (jsTrim (message.content.drop m.cmdPrefix.length)) =
      [] :: [] := by
    rw [hdrop, htrim]
    rfl
  refine ⟨?_, ?_, ?_, ?_, ?_⟩
  · simp only [CommandManager.add, hc]
  · simp only [CommandManager.add, hc]
    exact lookupAssoc_insertAssoc_self [] c m.commands
  · simp only [CommandManager.parsedCommandName, htok, List.head?_cons]
  · intro hnone
    exact parse_unknown m message [] [] hpre hbot htok hnone
  · intro c0 hsome
    cases hact : c0.action m.events message [] with
    | ok u =>
      cases u
      have h5 := parse_found_ok m message [] [] c0 hpre hbot htok hsome hact
      rw [h5]
      simp
    | error e =>
      have h5 := parse_found_err m message [] [] c0 e hpre hbot htok hsome hact
      rw [h5]
      simp

/-- C9 witness: adding the empty-named command stores it under the empty
key, and a concrete message that is the marker followed by one space
dispatches to it. -/
theorem C9_witness :
    CommandManager.add exManager3 exEmptyCommand =
      ({ exManager3 with commands := insertAssoc [] exEmptyCommand exManager3.commands },
       [Effect.log []]) ∧
    lookupAssoc [] (CommandManager.add exManager3 exEmptyCommand).1.commands =
      some exEmptyCommand ∧
    CommandManager.parsedCommandName exManager3 exMarkerMessage = some [] ∧
    Effect.invoke [] () exMarkerMessage [] ∈
      (CommandManager.parse exManager3 exMarkerMessage).2 := by
  have T := C9_empty_name_command exManager3 exEmptyCommand exMarkerMessage ([' '])
    rfl (by decide) (by decide) rfl
  exact ⟨T.1, T.2.1, T.2.2.1, T.2.2.2.2 exEmptyCommand rfl⟩

/-- C10: deserialize assigns exactly the keys present in the snapshot
onto the receiver: every snapshot key ends up with the snapshot value,
every other field keeps its previous value, and no field is removed. -/
theorem C10_deserialize_assigns (self obj : JSObject)
    (hnd : (keysOf obj).Nodup) :
    (∀ k v, lookupAssoc k obj = some v →
      lookupAssoc k (System.deserialize self obj) = some v) ∧
    (∀ k, lookupAssoc k obj = none →
      lookupAssoc k (System.deserialize self obj) = lookupAssoc k self) ∧
    (∀ k, k ∈ keysOf self → k ∈ keysOf (System.deserialize self obj)) := by
  refine ⟨?_, ?_, ?_⟩
  · intro k v h
    exact lookupAssoc_deserialize_mem obj self k v hnd h
  · intro k h
    exact lookupAssoc_deserialize_not_mem obj self k ((lookupAssoc_eq_none_iff k obj).1 h)
  · intro k h
    exact mem_keysOf_deserialize obj self k h

/-- C10 witness: on concrete receiver and snapshot, a snapshot key gets
the snapshot value, the registry field not present in the snapshot keeps
its old value, and its key is not removed. -/
theorem C10_witness :
    lookupAssoc (("b").toList) (System.deserialize c10Self c10Obj) = some (Value.vnum 3) ∧
    lookupAssoc (("events").toList) (System.deserialize c10Self c10Obj) =
      lookupAssoc (("events").toList) c10Self ∧
    (("events").toList) ∈ keysOf (System.deserialize c10Self c10Obj) := by
  have T := C10_deserialize_assigns c10Self c10Obj (by decide)
  exact ⟨T.1 (("b").toList) (Value.vnum 3) rfl, T.2.1 (("events").toList) rfl,
    T.2.2 (("events").toList) (by decide)⟩

end CrownBot
